import Mathlib

/-!
Shallow embedding of `src/data_provider.rs` (crate `hawktracer-parser`).

The Rust `DataProvider` wraps a `Box<dyn std::io::Read>` source and a fixed
512-byte buffer with two indices `data_pointer` and `data_available`.  We model
the source as the list of results its successive `read` calls will return:
each call either fails with an opaque cause (modelled as a `Nat` token) or
writes a chunk of bytes (bytes modelled as `Nat`, values 0..255) into the
front of the 512-byte slice and reports the chunk's length.  An exhausted
source (no entries left) keeps reporting a 0-byte fill, which is `std::io`'s
end-of-stream convention.
-/

/-- One answer of the underlying `std::io::Read` source to a `read` call:
either a chunk of bytes written into the front of the buffer (the reported
size is the chunk's length), or a low-level failure with an opaque cause. -/
inductive FillResult where
  | ok (chunk : List Nat)
  | err (cause : Nat)
deriving DecidableEq, Repr

/-- The `DataError` enum of `data_provider.rs`.  `IOError` wraps the opaque
cause of a source failure (`std::io::Error`, modelled as a `Nat` token). -/
inductive DataError where
  | EndOfStream
  | Utf8Error
  | IOError (cause : Nat)
deriving DecidableEq, Repr

/-- The hand-written `impl PartialEq for DataError`: two `IOError` values
compare equal regardless of the wrapped cause; the payload-free variants
compare equal only to themselves. -/
def DataError.beq : DataError → DataError → Bool
  | DataError.IOError _, DataError.IOError _ => true
  | DataError.EndOfStream, DataError.EndOfStream => true
  | DataError.Utf8Error, DataError.Utf8Error => true
  | _, _ => false

/-- The variant tag of a `DataError`, used to state that `DataError.beq`
compares exactly the variant tags and ignores the `IOError` payload. -/
def DataError.tag : DataError → Nat
  | DataError.EndOfStream => 0
  | DataError.Utf8Error => 1
  | DataError.IOError _ => 2

/-- The `DataProvider` struct: pending source answers, the 512-byte buffer
(as a list, kept at length 512 in every reachable state), and the two
indices. -/
structure DataProvider where
  reader : List FillResult
  buffer : List Nat
  data_pointer : Nat
  data_available : Nat
deriving DecidableEq, Repr

/-- `DataProvider::new`: zeroed 512-byte buffer, both indices 0. -/
def DataProvider.new (reader : List FillResult) : DataProvider :=
  { reader := reader
    buffer := List.replicate 512 0
    data_pointer := 0
    data_available := 0 }

/-- `DataProvider::load_data`: reset `data_pointer` to 0, then ask the source
to fill the 512-byte buffer.  On success the reported size becomes
`data_available` and the chunk overwrites the front of the buffer (the
`take 512` records that the source writes into a 512-byte slice and so cannot
place bytes beyond it); on failure the error is returned with
`data_available` untouched — but `data_pointer` has already been reset. -/
def load_data (dp : DataProvider) : Except Nat Nat × DataProvider :=
  match dp.reader with
  | [] =>
      (Except.ok 0, { dp with data_pointer := 0, data_available := 0 })
  | FillResult.err cause :: rest =>
      (Except.error cause, { dp with data_pointer := 0, reader := rest })
  | FillResult.ok chunk :: rest =>
      (Except.ok chunk.length,
        { dp with
            data_pointer := 0
            reader := rest
            buffer := (chunk ++ dp.buffer.drop chunk.length).take 512
            data_available := chunk.length })

/-- `DataProvider::get_next_byte`: refill when the buffer is exhausted
(`data_pointer == data_available`), then hand out `buffer[data_pointer]` and
advance the pointer.  A failed refill propagates as `IOError`; a 0-byte
refill is `EndOfStream`.  `List.getD _ _ 0` stands for the (in every
reachable state in-bounds) index `self.buffer[self.data_pointer]`. -/
def get_next_byte (dp : DataProvider) : Except DataError Nat × DataProvider :=
  if dp.data_pointer = dp.data_available then
    match load_data dp with
    | (Except.error e, dp') => (Except.error (DataError.IOError e), dp')
    | (Except.ok _, dp') =>
        if dp'.data_available = 0 then
          (Except.error DataError.EndOfStream, dp')
        else
          (Except.ok (dp'.buffer.getD dp'.data_pointer 0),
            { dp' with data_pointer := dp'.data_pointer + 1 })
  else
    (Except.ok (dp.buffer.getD dp.data_pointer 0),
      { dp with data_pointer := dp.data_pointer + 1 })

/-- `DataProvider::read_bytes`: fill the caller's destination slice (modelled
as the list of its current contents) one byte at a time.  Returns the result,
the destination after the call (on error the untouched suffix keeps its old
contents), and the final provider state. -/
def read_bytes : List Nat → DataProvider → Except DataError Unit × List Nat × DataProvider
  | [], dp => (Except.ok (), [], dp)
  | d :: dest, dp =>
      match get_next_byte dp with
      | (Except.ok v, dp') =>
          let r := read_bytes dest dp'
          (r.1, v :: r.2.1, r.2.2)
      | (Except.error e, dp') => (Except.error e, d :: dest, dp')

/-- Weight of one pending source answer, for the termination measure of the
`read_string` loop. -/
def fillWeight : FillResult → Nat
  | FillResult.ok c => 1 + c.length
  | FillResult.err _ => 1

/-- Termination measure for the `read_string` loop: every successful
`get_next_byte` that yields a nonzero byte strictly decreases it. -/
def dpMeasure (dp : DataProvider) : Nat :=
  (dp.reader.map fillWeight).sum * 512
    + (dp.data_available - dp.data_pointer)
    + (dp.buffer.length - dp.data_pointer)

theorem getD_eq_zero_of_len_le : ∀ (l : List Nat) (n : Nat), l.length ≤ n → l.getD n 0 = 0
  | [], _, _ => rfl
  | _ :: _, 0, h => absurd h (by simp)
  | _ :: l, n + 1, h => by
      rw [List.getD_cons_succ]
      exact getD_eq_zero_of_len_le l n (by simpa using h)

theorem get_next_byte_measure (dp : DataProvider) (b : Nat) (dp' : DataProvider)
    (h : get_next_byte dp = (Except.ok b, dp')) (hb : b ≠ 0) :
    dpMeasure dp' < dpMeasure dp := by
  unfold get_next_byte at h
  by_cases hpd : dp.data_pointer = dp.data_available
  · simp only [hpd, if_true, if_pos rfl] at h
    unfold load_data at h
    match hr : dp.reader with
    | [] =>
        rw [hr] at h
        simp at h
    | FillResult.err cause :: rest =>
        rw [hr] at h
        simp at h
    | FillResult.ok chunk :: rest =>
        rw [hr] at h
        by_cases hc : chunk.length = 0
        · simp [hc] at h
        · simp only [hc, if_neg hc, Prod.mk.injEq, Except.ok.injEq] at h
          obtain ⟨h1, h2⟩ := h
          have hlen : ((chunk ++ dp.buffer.drop chunk.length).take 512).length ≤ 512 := by
            rw [List.length_take]
            exact min_le_left _ _
          have hc1 : 1 ≤ chunk.length := Nat.one_le_iff_ne_zero.mpr hc
          simp only [dpMeasure, hr, List.map_cons, List.sum_cons, fillWeight]
          omega
  · simp only [if_neg hpd, Prod.mk.injEq, Except.ok.injEq] at h
    obtain ⟨hbv, h2⟩ := h
    subst h2
    subst hbv
    have hlt : dp.data_pointer < dp.buffer.length := by
      by_contra hge
      exact hb (getD_eq_zero_of_len_le dp.buffer dp.data_pointer (Nat.le_of_not_lt hge))
    simp only [dpMeasure]
    omega

/-- Byte-level UTF-8 acceptance as run by Rust `String::from_utf8` /
`str::from_utf8` (RFC 3629): ASCII, C2..DF + 1 continuation, E0 A0..BF /
E1..EC 80..BF / ED 80..9F / EE..EF 80..BF + continuation, F0 90..BF /
F1..F3 80..BF / F4 80..8F + 2 continuations.  Modelled from the Rust
standard library, which `read_string` calls and which is not part of this
repository. -/
def isCont (b : Nat) : Bool := decide (0x80 ≤ b) && decide (b ≤ 0xBF)

def utf8Valid : List Nat → Bool
  | [] => true
  | b0 :: rest =>
      if b0 < 0x80 then utf8Valid rest
      else if b0 < 0xC2 then false
      else if b0 < 0xE0 then
        match rest with
        | b1 :: rest2 => isCont b1 && utf8Valid rest2
        | [] => false
      else if b0 < 0xF0 then
        match rest with
        | b1 :: b2 :: rest3 =>
            (if b0 = 0xE0 then decide (0xA0 ≤ b1) && decide (b1 ≤ 0xBF)
             else if b0 = 0xED then decide (0x80 ≤ b1) && decide (b1 ≤ 0x9F)
             else isCont b1) && isCont b2 && utf8Valid rest3
        | _ => false
      else if b0 < 0xF5 then
        match rest with
        | b1 :: b2 :: b3 :: rest4 =>
            (if b0 = 0xF0 then decide (0x90 ≤ b1) && decide (b1 ≤ 0xBF)
             else if b0 = 0xF4 then decide (0x80 ≤ b1) && decide (b1 ≤ 0x8F)
             else isCont b1) && isCont b2 && isCont b3 && utf8Valid rest4
        | _ => false
      else false

/-- The final step of `read_string`: `String::from_utf8(data)`.  A Rust
`String` owns exactly the byte vector it was built from, so the success value
is modelled by that byte list (guaranteed valid UTF-8). -/
def stringResult (data : List Nat) : Except DataError (List Nat) :=
  if utf8Valid data then Except.ok data else Except.error DataError.Utf8Error

/-- The accumulation loop of `DataProvider::read_string`: pull bytes until a
zero byte (consumed, not accumulated), then validate the accumulated bytes;
any `get_next_byte` error aborts the whole call with that error. -/
def read_string_go (acc : List Nat) (dp : DataProvider) :
    Except DataError (List Nat) × DataProvider :=
  match h : get_next_byte dp with
  | (Except.error e, dp') => (Except.error e, dp')
  | (Except.ok b, dp') =>
      if hb : b = 0 then (stringResult acc, dp')
      else read_string_go (acc ++ [b]) dp'
termination_by dpMeasure dp
decreasing_by exact get_next_byte_measure dp b dp' h hb

/-- `DataProvider::read_string`. -/
def read_string (dp : DataProvider) : Except DataError (List Nat) × DataProvider :=
  read_string_go [] dp

/-! ## Case equations for `get_next_byte` -/

theorem get_next_byte_not_refill (dp : DataProvider)
    (hpd : dp.data_pointer ≠ dp.data_available) :
    get_next_byte dp =
      (Except.ok (dp.buffer.getD dp.data_pointer 0),
        { dp with data_pointer := dp.data_pointer + 1 }) := by
  simp [get_next_byte, hpd]

theorem get_next_byte_refill_nil (dp : DataProvider)
    (hpd : dp.data_pointer = dp.data_available) (hr : dp.reader = []) :
    get_next_byte dp =
      (Except.error DataError.EndOfStream,
        { dp with data_pointer := 0, data_available := 0 }) := by
  simp [get_next_byte, load_data, hpd, hr]

theorem get_next_byte_refill_err (dp : DataProvider) (c : Nat) (rest : List FillResult)
    (hpd : dp.data_pointer = dp.data_available)
    (hr : dp.reader = FillResult.err c :: rest) :
    get_next_byte dp =
      (Except.error (DataError.IOError c),
        { dp with data_pointer := 0, reader := rest }) := by
  simp [get_next_byte, load_data, hpd, hr]

theorem get_next_byte_refill_ok (dp : DataProvider) (chunk : List Nat)
    (rest : List FillResult)
    (hpd : dp.data_pointer = dp.data_available)
    (hr : dp.reader = FillResult.ok chunk :: rest) (hc : chunk.length ≠ 0) :
    get_next_byte dp =
      (Except.ok (((chunk ++ dp.buffer.drop chunk.length).take 512).getD 0 0),
        { reader := rest
          buffer := (chunk ++ dp.buffer.drop chunk.length).take 512
          data_pointer := 1
          data_available := chunk.length }) := by
  simp [get_next_byte, load_data, hpd, hr, hc]

theorem get_next_byte_refill_ok_zero (dp : DataProvider) (chunk : List Nat)
    (rest : List FillResult)
    (hpd : dp.data_pointer = dp.data_available)
    (hr : dp.reader = FillResult.ok chunk :: rest) (hc : chunk.length = 0) :
    get_next_byte dp =
      (Except.error DataError.EndOfStream,
        { reader := rest
          buffer := (chunk ++ dp.buffer.drop chunk.length).take 512
          data_pointer := 0
          data_available := chunk.length }) := by
  simp [get_next_byte, load_data, hpd, hr, hc]

/-! ## List helpers -/

theorem drop_cons_getD : ∀ (l : List Nat) (p b : Nat) (t : List Nat),
    l.drop p = b :: t → l.getD p 0 = b
  | [], p, _, _, h => by simp at h
  | a :: l, 0, b, t, h => by
      rw [List.drop_zero] at h
      rw [List.getD_cons_zero]
      exact (List.cons.injEq a l b t ▸ h).1
  | a :: l, p + 1, b, t, h => by
      rw [List.getD_cons_succ]
      exact drop_cons_getD l p b t (by simpa using h)

theorem drop_succ_of_drop_cons : ∀ (l : List Nat) (p b : Nat) (t : List Nat),
    l.drop p = b :: t → l.drop (p + 1) = t
  | [], p, _, _, h => by simp at h
  | a :: l, 0, b, t, h => by
      rw [List.drop_zero] at h
      simpa using (List.cons.injEq a l b t ▸ h).2
  | a :: l, p + 1, b, t, h => by
      rw [List.drop_succ_cons]
      exact drop_succ_of_drop_cons l p b t (by simpa using h)

/-! ## Reachable-state invariant over all-`ok` sources -/

/-- One chunk of an error-free delivery schedule is admissible when it is
nonempty (a 0-byte fill means end of stream) and fits the 512-byte slice a
fill call is given. -/
def chunkOK (c : List Nat) : Bool := decide (c ≠ []) && decide (c.length ≤ 512)

def chunksOK (cs : List (List Nat)) : Bool := cs.all chunkOK

/-- The source whose successive fill calls deliver exactly the chunks `cs`,
then report end of stream forever. -/
def mkReader (cs : List (List Nat)) : List FillResult := cs.map FillResult.ok

/-- Invariant of every state reachable while reading from an all-`ok` source:
`cur` is the list of buffered-but-unread bytes and `cs` the chunks the source
has yet to deliver. -/
def GoodSt (dp : DataProvider) (cur : List Nat) (cs : List (List Nat)) : Prop :=
  dp.reader = mkReader cs ∧
  chunksOK cs = true ∧
  dp.data_available = dp.data_pointer + cur.length ∧
  dp.data_available ≤ 512 ∧
  dp.buffer.length = 512 ∧
  ∃ t, dp.buffer.drop dp.data_pointer = cur ++ t

theorem goodSt_new (cs : List (List Nat)) (h : chunksOK cs = true) :
    GoodSt (DataProvider.new (mkReader cs)) [] cs :=
  ⟨rfl, h, rfl, Nat.zero_le _,
    List.length_replicate 512 0,
    List.replicate 512 0, by
      show List.drop 0 (List.replicate 512 0) = [] ++ List.replicate 512 0
      rw [List.drop_zero, List.nil_append]⟩

theorem gnb_eos (dp : DataProvider) (h : GoodSt dp [] []) :
    ∃ dp', get_next_byte dp = (Except.error DataError.EndOfStream, dp') ∧
      GoodSt dp' [] [] := by
  obtain ⟨hr, _, hda, hle, hbl, t, hdrop⟩ := h
  have hpd : dp.data_pointer = dp.data_available := by
    simp only [List.length_nil, Nat.add_zero] at hda
    omega
  refine ⟨_, get_next_byte_refill_nil dp hpd (by simpa [mkReader] using hr), ?_⟩
  exact ⟨by simpa [mkReader] using hr, rfl, rfl, by norm_num, hbl,
    dp.buffer, by simp⟩

theorem gnb_step (dp : DataProvider) (cur : List Nat) (cs : List (List Nat))
    (b : Nat) (s : List Nat)
    (h : GoodSt dp cur cs) (hs : cur ++ cs.flatten = b :: s) :
    ∃ dp' cur' cs', get_next_byte dp = (Except.ok b, dp') ∧
      GoodSt dp' cur' cs' ∧ cur' ++ cs'.flatten = s := by
  obtain ⟨hr, hcs, hda, hle, hbl, t, hdrop⟩ := h
  cases cur with
  | cons x cur0 =>
      have hx : x = b ∧ cur0 ++ cs.flatten = s := by
        rw [List.cons_append] at hs
        exact ⟨(List.cons.injEq _ _ _ _ ▸ hs).1, (List.cons.injEq _ _ _ _ ▸ hs).2⟩
      have hpd : dp.data_pointer ≠ dp.data_available := by
        simp only [List.length_cons] at hda
        omega
      have hdrop' : dp.buffer.drop dp.data_pointer = x :: (cur0 ++ t) := by
        simpa using hdrop
      refine ⟨{ dp with data_pointer := dp.data_pointer + 1 }, cur0, cs, ?_, ?_, hx.2⟩
      · rw [get_next_byte_not_refill dp hpd,
          drop_cons_getD dp.buffer dp.data_pointer x (cur0 ++ t) hdrop', hx.1]
      · refine ⟨hr, hcs, ?_, hle, hbl,
          t, drop_succ_of_drop_cons dp.buffer dp.data_pointer x (cur0 ++ t) hdrop'⟩
        simp only [List.length_cons] at hda
        simp only [List.length_cons]
        omega
  | nil =>
      rw [List.nil_append] at hs
      have hpd : dp.data_pointer = dp.data_available := by
        simp only [List.length_nil, Nat.add_zero] at hda
        omega
      cases cs with
      | nil => simp at hs
      | cons c cs0 =>
          have hcok : chunkOK c = true ∧ chunksOK cs0 = true := by
            have h0 := hcs
            simp only [chunksOK, List.all_cons, Bool.and_eq_true] at h0
            exact ⟨h0.1, h0.2⟩
          have hcne : c ≠ [] := by
            have h0 := hcok.1
            simp only [chunkOK, Bool.and_eq_true, decide_eq_true_eq] at h0
            exact h0.1
          have hcle : c.length ≤ 512 := by
            have h0 := hcok.1
            simp only [chunkOK, Bool.and_eq_true, decide_eq_true_eq] at h0
            exact h0.2
          cases c with
          | nil => exact absurd rfl hcne
          | cons cb ct =>
              have hflat : cb :: (ct ++ cs0.flatten) = b :: s := by
                simpa [List.flatten_cons] using hs
              have hcb : cb = b := (List.cons.injEq _ _ _ _ ▸ hflat).1
              have hts : ct ++ cs0.flatten = s := (List.cons.injEq _ _ _ _ ▸ hflat).2
              have hrr : dp.reader = FillResult.ok (cb :: ct) :: mkReader cs0 := by
                simpa [mkReader] using hr
              have hclen : (cb :: ct).length ≠ 0 := by simp
              have hbuf : ((cb :: ct) ++ dp.buffer.drop (cb :: ct).length) =
                  cb :: (ct ++ dp.buffer.drop (cb :: ct).length) := by
                simp
              have hlen512 : ((cb :: ct) ++ dp.buffer.drop (cb :: ct).length).length = 512 := by
                simp only [List.length_append, List.length_drop, hbl]
                simp only [List.length_cons] at hcle ⊢
                omega
              refine ⟨{ reader := mkReader cs0
                        buffer := ((cb :: ct) ++ dp.buffer.drop (cb :: ct).length).take 512
                        data_pointer := 1
                        data_available := (cb :: ct).length }, ct, cs0, ?_, ?_, hts⟩
              · rw [get_next_byte_refill_ok dp (cb :: ct) (mkReader cs0) hpd hrr hclen]
                have : (((cb :: ct) ++ dp.buffer.drop (cb :: ct).length).take 512).getD 0 0 = cb := by
                  apply drop_cons_getD _ 0
                  rw [List.drop_zero, hbuf]
                  rw [show (512 : Nat) = 511 + 1 from rfl, List.take_succ_cons]
                rw [this, hcb]
              · have hctle : ct.length ≤ 511 := by
                  simp only [List.length_cons] at hcle
                  omega
                refine ⟨rfl, hcok.2, ?_, hcle, ?_, ?_⟩
                · simp only [List.length_cons]
                  omega
                · rw [List.length_take, hlen512]
                  exact min_self 512
                · refine ⟨(dp.buffer.drop (cb :: ct).length).take (511 - ct.length), ?_⟩
                  show (((cb :: ct) ++ dp.buffer.drop (cb :: ct).length).take 512).drop 1 =
                    ct ++ (dp.buffer.drop (cb :: ct).length).take (511 - ct.length)
                  rw [hbuf, show (512 : Nat) = 511 + 1 from rfl, List.take_succ_cons,
                    List.drop_one, List.tail_cons, List.take_append_eq_append_take,
                    List.take_of_length_le hctle]

/-! ## Case equations for `read_bytes` and `read_string_go` -/

theorem read_bytes_nil (dp : DataProvider) : read_bytes [] dp = (Except.ok (), [], dp) := rfl

theorem read_bytes_cons_ok (d : Nat) (dest : List Nat) (dp : DataProvider)
    (v : Nat) (dp' : DataProvider) (hg : get_next_byte dp = (Except.ok v, dp')) :
    read_bytes (d :: dest) dp =
      ((read_bytes dest dp').1, v :: (read_bytes dest dp').2.1, (read_bytes dest dp').2.2) := by
  simp only [read_bytes, hg]

theorem read_bytes_cons_err (d : Nat) (dest : List Nat) (dp : DataProvider)
    (e : DataError) (dp' : DataProvider) (hg : get_next_byte dp = (Except.error e, dp')) :
    read_bytes (d :: dest) dp = (Except.error e, d :: dest, dp') := by
  simp only [read_bytes, hg]

theorem read_string_go_err (acc : List Nat) (dp : DataProvider)
    (e : DataError) (dp' : DataProvider)
    (hg : get_next_byte dp = (Except.error e, dp')) :
    read_string_go acc dp = (Except.error e, dp') := by
  rw [read_string_go.eq_def]
  split
  · next e2 dp2 heq =>
      rw [hg] at heq
      simp only [Prod.mk.injEq, Except.error.injEq] at heq
      obtain ⟨he, hdp⟩ := heq
      subst he
      subst hdp
      rfl
  · next b dp2 heq =>
      rw [hg] at heq
      exact absurd heq (by simp)

theorem read_string_go_zero (acc : List Nat) (dp : DataProvider) (dp' : DataProvider)
    (hg : get_next_byte dp = (Except.ok 0, dp')) :
    read_string_go acc dp = (stringResult acc, dp') := by
  rw [read_string_go.eq_def]
  split
  · next e2 dp2 heq =>
      rw [hg] at heq
      exact absurd heq (by simp)
  · next b dp2 heq =>
      rw [hg] at heq
      simp only [Prod.mk.injEq, Except.ok.injEq] at heq
      obtain ⟨hb, hdp⟩ := heq
      subst hdp
      simp [hb.symm]

theorem read_string_go_pos (acc : List Nat) (dp : DataProvider) (b : Nat) (dp' : DataProvider)
    (hg : get_next_byte dp = (Except.ok b, dp')) (hb : b ≠ 0) :
    read_string_go acc dp = read_string_go (acc ++ [b]) dp' := by
  rw [read_string_go.eq_def]
  split
  · next e2 dp2 heq =>
      rw [hg] at heq
      exact absurd heq (by simp)
  · next b2 dp2 heq =>
      rw [hg] at heq
      simp only [Prod.mk.injEq, Except.ok.injEq] at heq
      obtain ⟨hbb, hdp⟩ := heq
      subst hdp
      subst hbb
      simp [hb]

/-! ## The `data_pointer <= data_available <= 512` invariant -/

/-- A well-behaved source answer: a fill call is handed a 512-byte slice, so
it cannot report more than 512 bytes filled. -/
def fillWF : FillResult → Bool
  | FillResult.ok c => decide (c.length ≤ 512)
  | FillResult.err _ => true

def readerWF (rs : List FillResult) : Bool := rs.all fillWF

/-- The buffer-index invariant of the spec:
`0 <= data_pointer <= data_available <= 512`. -/
def BufInv (dp : DataProvider) : Prop :=
  dp.data_pointer ≤ dp.data_available ∧ dp.data_available ≤ 512

instance (dp : DataProvider) : Decidable (BufInv dp) := by
  unfold BufInv
  infer_instance

theorem gnb_inv (dp : DataProvider) (hw : readerWF dp.reader = true) (hI : BufInv dp) :
    BufInv (get_next_byte dp).2 ∧ readerWF (get_next_byte dp).2.reader = true := by
  by_cases hpd : dp.data_pointer = dp.data_available
  · match hr : dp.reader with
    | [] =>
        rw [get_next_byte_refill_nil dp hpd hr]
        exact ⟨⟨Nat.le_refl 0, Nat.zero_le 512⟩, hw⟩
    | FillResult.err c :: rest =>
        rw [get_next_byte_refill_err dp c rest hpd hr]
        have hw2 : readerWF rest = true := by
          rw [hr] at hw
          simp only [readerWF, List.all_cons, Bool.and_eq_true] at hw
          exact hw.2
        exact ⟨⟨Nat.zero_le _, hI.2⟩, hw2⟩
    | FillResult.ok chunk :: rest =>
        have hw2 : chunk.length ≤ 512 ∧ readerWF rest = true := by
          rw [hr] at hw
          simp only [readerWF, List.all_cons, Bool.and_eq_true, fillWF,
            decide_eq_true_eq] at hw
          exact ⟨hw.1, hw.2⟩
        by_cases hc : chunk.length = 0
        · rw [get_next_byte_refill_ok_zero dp chunk rest hpd hr hc]
          exact ⟨⟨Nat.zero_le _, hw2.1⟩, hw2.2⟩
        · rw [get_next_byte_refill_ok dp chunk rest hpd hr hc]
          exact ⟨⟨Nat.one_le_iff_ne_zero.mpr hc, hw2.1⟩, hw2.2⟩
  · rw [get_next_byte_not_refill dp hpd]
    exact ⟨⟨Nat.lt_of_le_of_ne hI.1 hpd, hI.2⟩, hw⟩

theorem read_bytes_inv : ∀ (dest : List Nat) (dp : DataProvider),
    readerWF dp.reader = true → BufInv dp →
    BufInv (read_bytes dest dp).2.2 ∧ readerWF (read_bytes dest dp).2.2.reader = true
  | [], dp, hw, hI => by
      rw [read_bytes_nil]
      exact ⟨hI, hw⟩
  | d :: dest, dp, hw, hI => by
      match hg : get_next_byte dp with
      | (Except.ok v, dp') =>
          rw [read_bytes_cons_ok d dest dp v dp' hg]
          have h2 := gnb_inv dp hw hI
          rw [hg] at h2
          exact read_bytes_inv dest dp' h2.2 h2.1
      | (Except.error e, dp') =>
          rw [read_bytes_cons_err d dest dp e dp' hg]
          have h2 := gnb_inv dp hw hI
          rw [hg] at h2
          exact h2

theorem read_string_go_inv : ∀ (n : Nat) (acc : List Nat) (dp : DataProvider),
    dpMeasure dp < n → readerWF dp.reader = true → BufInv dp →
    BufInv (read_string_go acc dp).2 ∧ readerWF (read_string_go acc dp).2.reader = true
  | 0, _, dp, hm, _, _ => absurd hm (Nat.not_lt_zero _)
  | n + 1, acc, dp, hm, hw, hI => by
      match hg : get_next_byte dp with
      | (Except.error e, dp') =>
          rw [read_string_go_err acc dp e dp' hg]
          have h2 := gnb_inv dp hw hI
          rw [hg] at h2
          exact h2
      | (Except.ok b, dp') =>
          have h2 := gnb_inv dp hw hI
          rw [hg] at h2
          by_cases hb : b = 0
          · subst hb
            rw [read_string_go_zero acc dp dp' hg]
            exact h2
          · rw [read_string_go_pos acc dp b dp' hg hb]
            have hm' : dpMeasure dp' < n :=
              Nat.lt_of_lt_of_le (get_next_byte_measure dp b dp' hg hb)
                (Nat.lt_succ_iff.mp hm)
            exact read_string_go_inv n (acc ++ [b]) dp' hm' h2.2 h2.1

theorem read_string_inv (dp : DataProvider)
    (hw : readerWF dp.reader = true) (hI : BufInv dp) :
    BufInv (read_string dp).2 ∧ readerWF (read_string dp).2.reader = true :=
  read_string_go_inv (dpMeasure dp + 1) [] dp (Nat.lt_succ_self _) hw hI

/-! ## Stream-level behaviour over error-free sources -/

theorem chunks_flatten_nil (cs : List (List Nat)) (h : chunksOK cs = true)
    (hf : cs.flatten = []) : cs = [] := by
  cases cs with
  | nil => rfl
  | cons c cs0 =>
      exfalso
      have hcok : chunkOK c = true := by
        simp only [chunksOK, List.all_cons, Bool.and_eq_true] at h
        exact h.1
      have hcne : c ≠ [] := by
        simp only [chunkOK, Bool.and_eq_true, decide_eq_true_eq] at hcok
        exact hcok.1
      rw [List.flatten_cons] at hf
      exact hcne (List.append_eq_nil.mp hf).1

theorem read_bytes_ok_of_enough : ∀ (dest : List Nat) (dp : DataProvider)
    (cur : List Nat) (cs : List (List Nat)),
    GoodSt dp cur cs → dest.length ≤ (cur ++ cs.flatten).length →
    ∃ dp' cur' cs',
      read_bytes dest dp = (Except.ok (), (cur ++ cs.flatten).take dest.length, dp')
      ∧ GoodSt dp' cur' cs'
      ∧ cur' ++ cs'.flatten = (cur ++ cs.flatten).drop dest.length
  | [], dp, cur, cs, hgood, _ => by
      refine ⟨dp, cur, cs, ?_, hgood, ?_⟩
      · rw [read_bytes_nil, List.length_nil, List.take_zero]
      · rw [List.length_nil, List.drop_zero]
  | d :: dest, dp, cur, cs, hgood, hlen => by
      match hS : cur ++ cs.flatten with
      | [] =>
          rw [hS] at hlen
          exact absurd hlen (by simp)
      | b :: s =>
          obtain ⟨dp1, cur1, cs1, hstep, hgood1, hstream1⟩ :=
            gnb_step dp cur cs b s hgood hS
          have hlen1 : dest.length ≤ s.length := by
            rw [hS] at hlen
            simp only [List.length_cons] at hlen ⊢
            omega
          obtain ⟨dp2, cur2, cs2, hrb, hgood2, hstream2⟩ :=
            read_bytes_ok_of_enough dest dp1 cur1 cs1 hgood1 (hstream1 ▸ hlen1)
          refine ⟨dp2, cur2, cs2, ?_, hgood2, ?_⟩
          · rw [read_bytes_cons_ok d dest dp b dp1 hstep, hrb]
            simp only [hS, hstream1, List.length_cons, List.take_succ_cons]
          · rw [hstream2, hstream1]
            simp only [hS, List.length_cons, List.drop_succ_cons]

theorem read_bytes_eos_of_short : ∀ (dest : List Nat) (dp : DataProvider)
    (cur : List Nat) (cs : List (List Nat)),
    GoodSt dp cur cs → (cur ++ cs.flatten).length < dest.length →
    ∃ dp',
      read_bytes dest dp =
        (Except.error DataError.EndOfStream,
          (cur ++ cs.flatten) ++ dest.drop (cur ++ cs.flatten).length, dp')
  | [], _, cur, cs, _, hlen => absurd hlen (by simp)
  | d :: dest, dp, cur, cs, hgood, hlen => by
      match hS : cur ++ cs.flatten with
      | [] =>
          have hcur : cur = [] := (List.append_eq_nil.mp hS).1
          have hfl : cs.flatten = [] := (List.append_eq_nil.mp hS).2
          have hcs : cs = [] := chunks_flatten_nil cs hgood.2.1 hfl
          subst hcur
          subst hcs
          obtain ⟨dp1, hstep, _⟩ := gnb_eos dp hgood
          refine ⟨dp1, ?_⟩
          rw [read_bytes_cons_err d dest dp DataError.EndOfStream dp1 hstep]
          simp
      | b :: s =>
          obtain ⟨dp1, cur1, cs1, hstep, hgood1, hstream1⟩ :=
            gnb_step dp cur cs b s hgood hS
          have hlen1 : s.length < dest.length := by
            rw [hS] at hlen
            simp only [List.length_cons] at hlen ⊢
            omega
          obtain ⟨dp2, hrb⟩ :=
            read_bytes_eos_of_short dest dp1 cur1 cs1 hgood1 (hstream1 ▸ hlen1)
          refine ⟨dp2, ?_⟩
          rw [read_bytes_cons_ok d dest dp b dp1 hstep, hrb]
          simp only [hstream1, hS, List.length_cons, List.drop_succ_cons,
            List.cons_append]

theorem read_string_go_terminator : ∀ (B acc : List Nat) (dp : DataProvider)
    (cur : List Nat) (cs : List (List Nat)) (rest : List Nat),
    GoodSt dp cur cs → cur ++ cs.flatten = B ++ 0 :: rest → 0 ∉ B →
    ∃ dp' cur' cs',
      read_string_go acc dp = (stringResult (acc ++ B), dp')
      ∧ GoodSt dp' cur' cs'
      ∧ cur' ++ cs'.flatten = rest
  | [], acc, dp, cur, cs, rest, hgood, hS, _ => by
      rw [List.nil_append] at hS
      obtain ⟨dp1, cur1, cs1, hstep, hgood1, hstream1⟩ :=
        gnb_step dp cur cs 0 rest hgood hS
      refine ⟨dp1, cur1, cs1, ?_, hgood1, hstream1⟩
      rw [read_string_go_zero acc dp dp1 hstep, List.append_nil]
  | x :: B0, acc, dp, cur, cs, rest, hgood, hS, hnotin => by
      have hx : x ≠ 0 := by
        intro h0
        exact hnotin (h0 ▸ List.mem_cons_self x B0)
      have hnotin0 : 0 ∉ B0 := fun h0 => hnotin (List.mem_cons_of_mem x h0)
      rw [List.cons_append] at hS
      obtain ⟨dp1, cur1, cs1, hstep, hgood1, hstream1⟩ :=
        gnb_step dp cur cs x (B0 ++ 0 :: rest) hgood hS
      obtain ⟨dp2, cur2, cs2, hrs, hgood2, hstream2⟩ :=
        read_string_go_terminator B0 (acc ++ [x]) dp1 cur1 cs1 rest hgood1
          hstream1 hnotin0
      refine ⟨dp2, cur2, cs2, ?_, hgood2, hstream2⟩
      rw [read_string_go_pos acc dp x dp1 hstep (fun h0 => hx h0), hrs,
        List.append_assoc, List.singleton_append]

theorem read_string_go_no_terminator : ∀ (n : Nat) (acc : List Nat)
    (dp : DataProvider) (cur : List Nat) (cs : List (List Nat)),
    GoodSt dp cur cs → 0 ∉ cur ++ cs.flatten → (cur ++ cs.flatten).length < n →
    ∃ dp',
      read_string_go acc dp = (Except.error DataError.EndOfStream, dp')
      ∧ GoodSt dp' [] []
  | 0, _, _, cur, cs, _, _, hn => absurd hn (Nat.not_lt_zero _)
  | n + 1, acc, dp, cur, cs, hgood, hnotin, hn => by
      match hS : cur ++ cs.flatten with
      | [] =>
          have hcur : cur = [] := (List.append_eq_nil.mp hS).1
          have hcs : cs = [] :=
            chunks_flatten_nil cs hgood.2.1 (List.append_eq_nil.mp hS).2
          subst hcur
          subst hcs
          obtain ⟨dp1, hstep, hgood1⟩ := gnb_eos dp hgood
          exact ⟨dp1, read_string_go_err acc dp DataError.EndOfStream dp1 hstep, hgood1⟩
      | b :: s =>
          have hb : b ≠ 0 := by
            intro h0
            rw [hS] at hnotin
            exact hnotin (h0 ▸ List.mem_cons_self b s)
          obtain ⟨dp1, cur1, cs1, hstep, hgood1, hstream1⟩ :=
            gnb_step dp cur cs b s hgood hS
          have hnotin1 : 0 ∉ cur1 ++ cs1.flatten := by
            rw [hstream1]
            intro h0
            rw [hS] at hnotin
            exact hnotin (List.mem_cons_of_mem b h0)
          have hn1 : (cur1 ++ cs1.flatten).length < n := by
            rw [hstream1]
            rw [hS] at hn
            simp only [List.length_cons] at hn
            omega
          obtain ⟨dp2, hrs, hgood2⟩ :=
            read_string_go_no_terminator n (acc ++ [b]) dp1 cur1 cs1 hgood1
              hnotin1 hn1
          exact ⟨dp2, by rw [read_string_go_pos acc dp b dp1 hstep hb, hrs], hgood2⟩

/-! ## Helper facts for the claim theorems -/

theorem load_data_inv (dp : DataProvider) (hw : readerWF dp.reader = true)
    (hI : BufInv dp) : BufInv (load_data dp).2 := by
  match hr : dp.reader with
  | [] =>
      unfold load_data
      rw [hr]
      exact ⟨Nat.le_refl 0, Nat.zero_le _⟩
  | FillResult.err c :: rest =>
      unfold load_data
      rw [hr]
      exact ⟨Nat.zero_le _, hI.2⟩
  | FillResult.ok chunk :: rest =>
      unfold load_data
      rw [hr]
      have hch : chunk.length ≤ 512 := by
        rw [hr] at hw
        simp only [readerWF, List.all_cons, Bool.and_eq_true, fillWF,
          decide_eq_true_eq] at hw
        exact hw.1
      exact ⟨Nat.zero_le _, hch⟩

theorem gnb_eos_state (dp dp' : DataProvider)
    (h : get_next_byte dp = (Except.error DataError.EndOfStream, dp')) :
    dp'.data_pointer = 0 ∧ dp'.data_available = 0 := by
  by_cases hpd : dp.data_pointer = dp.data_available
  · match hr : dp.reader with
    | [] =>
        rw [get_next_byte_refill_nil dp hpd hr] at h
        simp only [Prod.mk.injEq, true_and] at h
        subst h
        exact ⟨rfl, rfl⟩
    | FillResult.err c :: rest =>
        rw [get_next_byte_refill_err dp c rest hpd hr] at h
        exact absurd h (by simp)
    | FillResult.ok chunk :: rest =>
        by_cases hc : chunk.length = 0
        · rw [get_next_byte_refill_ok_zero dp chunk rest hpd hr hc] at h
          simp only [Prod.mk.injEq, true_and] at h
          subst h
          exact ⟨rfl, hc⟩
        · rw [get_next_byte_refill_ok dp chunk rest hpd hr hc] at h
          exact absurd h (by simp)
  · rw [get_next_byte_not_refill dp hpd] at h
    exact absurd h (by simp)

/-! ## Claim theorems -/

/-- C1: evaluation of the code on the failing input.  The source delivers
`[7, 8]` in a first successful fill and fails on the second fill.  After
`read_bytes` has handed out both bytes and a subsequent refill attempt fails
with a source error, the buffer state still claims two bytes available
(`data_pointer = 0 < data_available = 2`, because `load_data` resets
`data_pointer` before the failed read), and the next read re-yields the
already-consumed byte `7` — contradicting the claim that a failed refill
leaves no bytes claimed available and that consumed bytes are never
re-handed. -/
theorem C1_code_bug_eval :
    (read_bytes [0, 0] (DataProvider.new [FillResult.ok [7, 8], FillResult.err 3]))
      = (Except.ok (), [7, 8],
          (read_bytes [0, 0] (DataProvider.new
            [FillResult.ok [7, 8], FillResult.err 3])).2.2)
    ∧ (get_next_byte (read_bytes [0, 0] (DataProvider.new
        [FillResult.ok [7, 8], FillResult.err 3])).2.2).1
      = Except.error (DataError.IOError 3)
    ∧ (get_next_byte (read_bytes [0, 0] (DataProvider.new
        [FillResult.ok [7, 8], FillResult.err 3])).2.2).2.data_pointer = 0
    ∧ (get_next_byte (read_bytes [0, 0] (DataProvider.new
        [FillResult.ok [7, 8], FillResult.err 3])).2.2).2.data_available = 2
    ∧ (get_next_byte (get_next_byte (read_bytes [0, 0] (DataProvider.new
        [FillResult.ok [7, 8], FillResult.err 3])).2.2).2).1
      = Except.ok 7 :=
  ⟨rfl, rfl, rfl, rfl, rfl⟩

/-- C2: for every admissible split `cs` of a byte sequence `S = cs.flatten`
with `S.length <= 512` across successive fill calls, `read_exact`
(`read_bytes`) on a destination of length `S.length` over a freshly
constructed reader succeeds and the destination afterwards is exactly `S`,
in order. -/
theorem C2_read_exact_exact_bytes (cs : List (List Nat)) (dest : List Nat)
    (hcs : chunksOK cs = true) (hlen : dest.length = cs.flatten.length)
    (hcap : cs.flatten.length ≤ 512) :
    ∃ dp', read_bytes dest (DataProvider.new (mkReader cs)) =
      (Except.ok (), cs.flatten, dp') := by
  obtain ⟨dp', cur', cs', hrb, _, _⟩ :=
    read_bytes_ok_of_enough dest (DataProvider.new (mkReader cs)) [] cs
      (goodSt_new cs hcs) (by rw [List.nil_append]; omega)
  refine ⟨dp', ?_⟩
  rw [hrb, List.nil_append, hlen, List.take_length]

theorem C2_witness :
    ∃ dp', read_bytes [9, 9, 9] (DataProvider.new (mkReader [[1], [2, 3]])) =
      (Except.ok (), [1, 2, 3], dp') :=
  C2_read_exact_exact_bytes [[1], [2, 3]] [9, 9, 9] (by decide) (by decide)
    (by decide)

/-- C3: when the (error-free) source ultimately delivers fewer bytes than
requested, `read_exact` fails with `EndOfStream`, and every delivered byte
has been written into the corresponding destination prefix, the untouched
suffix keeping its old contents. -/
theorem C3_read_exact_end_of_stream (cs : List (List Nat)) (dest : List Nat)
    (hcs : chunksOK cs = true) (hlen : cs.flatten.length < dest.length) :
    ∃ dp', read_bytes dest (DataProvider.new (mkReader cs)) =
      (Except.error DataError.EndOfStream,
        cs.flatten ++ dest.drop cs.flatten.length, dp') := by
  obtain ⟨dp', hrb⟩ :=
    read_bytes_eos_of_short dest (DataProvider.new (mkReader cs)) [] cs
      (goodSt_new cs hcs) (by rw [List.nil_append]; exact hlen)
  refine ⟨dp', ?_⟩
  rw [hrb, List.nil_append]

theorem C3_witness :
    ∃ dp', read_bytes [9, 9, 9, 9, 9] (DataProvider.new (mkReader [[1, 2, 3, 4]])) =
      (Except.error DataError.EndOfStream, [1, 2, 3, 4, 9], dp') :=
  C3_read_exact_end_of_stream [[1, 2, 3, 4]] [9, 9, 9, 9, 9] (by decide) (by decide)

/-- C4: for every source whose stream is `B` followed by a zero byte (then
`rest`), with `0 ∉ B` and `B` valid UTF-8, delivered in any admissible split
`cs`, `read_cstring` (`read_string`) succeeds and returns exactly the text
decoded from `B` (a Rust `String` owns exactly its UTF-8 bytes, so the
result is modelled by the byte list `B`).  The zero terminator is consumed
from the stream but excluded from the result: the remaining unread stream
after the call is exactly `rest`, the bytes strictly after the terminator.
`B = []` (terminator as the very first byte) yields the empty string, not an
error. -/
theorem C4_read_cstring_ok (cs : List (List Nat)) (B rest : List Nat)
    (hcs : chunksOK cs = true) (hflat : cs.flatten = B ++ 0 :: rest)
    (hnz : 0 ∉ B) (hutf : utf8Valid B = true) :
    ∃ dp' cur' cs', read_string (DataProvider.new (mkReader cs)) = (Except.ok B, dp')
      ∧ GoodSt dp' cur' cs' ∧ cur' ++ cs'.flatten = rest := by
  obtain ⟨dp', cur', cs', hrs, hgood', hstream'⟩ :=
    read_string_go_terminator B [] (DataProvider.new (mkReader cs)) [] cs rest
      (goodSt_new cs hcs) (by rw [List.nil_append, hflat]) hnz
  refine ⟨dp', cur', cs', ?_, hgood', hstream'⟩
  unfold read_string
  rw [hrs]
  simp only [List.nil_append, stringResult, hutf, if_true]

theorem C4_witness :
    ∃ dp' cur' cs', read_string (DataProvider.new (mkReader [[65, 66, 0]])) =
      (Except.ok [65, 66], dp')
      ∧ GoodSt dp' cur' cs' ∧ cur' ++ cs'.flatten = [] :=
  C4_read_cstring_ok [[65, 66, 0]] [65, 66] [] (by decide) (by decide) (by decide)
    (by decide)

/-- C5: when the (error-free) source is exhausted before any zero byte
appears, `read_cstring` (`read_string`) fails with `EndOfStream` and never
produces a truncated string as a success value. -/
theorem C5_read_cstring_eos (cs : List (List Nat))
    (hcs : chunksOK cs = true) (hnz : 0 ∉ cs.flatten) :
    ∃ dp', read_string (DataProvider.new (mkReader cs)) =
      (Except.error DataError.EndOfStream, dp') := by
  obtain ⟨dp', hrs, _⟩ :=
    read_string_go_no_terminator (cs.flatten.length + 1) []
      (DataProvider.new (mkReader cs)) [] cs (goodSt_new cs hcs)
      (by simpa using hnz) (by simp)
  exact ⟨dp', by unfold read_string; exact hrs⟩

theorem C5_witness :
    ∃ dp', read_string (DataProvider.new (mkReader [[65, 66, 67, 68]])) =
      (Except.error DataError.EndOfStream, dp') :=
  C5_read_cstring_eos [[65, 66, 67, 68]] (by decide) (by decide)

/-- C6: when the bytes `B` before the first zero byte are not valid UTF-8,
`read_cstring` (`read_string`) consumes the bytes up to and including the
terminator (the remaining unread stream is exactly `rest`) and fails with
`EncodingError` (`Utf8Error`), never returning a partial or lossy string. -/
theorem C6_read_cstring_utf8_error (cs : List (List Nat)) (B rest : List Nat)
    (hcs : chunksOK cs = true) (hflat : cs.flatten = B ++ 0 :: rest)
    (hnz : 0 ∉ B) (hutf : utf8Valid B = false) :
    ∃ dp' cur' cs', read_string (DataProvider.new (mkReader cs)) =
      (Except.error DataError.Utf8Error, dp')
      ∧ GoodSt dp' cur' cs' ∧ cur' ++ cs'.flatten = rest := by
  obtain ⟨dp', cur', cs', hrs, hgood', hstream'⟩ :=
    read_string_go_terminator B [] (DataProvider.new (mkReader cs)) [] cs rest
      (goodSt_new cs hcs) (by rw [List.nil_append, hflat]) hnz
  refine ⟨dp', cur', cs', ?_, hgood', hstream'⟩
  unfold read_string
  rw [hrs]
  simp only [List.nil_append, stringResult, hutf, if_false, Bool.false_eq_true]

theorem C6_witness :
    ∃ dp' cur' cs', read_string (DataProvider.new (mkReader [[65, 220, 0, 5]])) =
      (Except.error DataError.Utf8Error, dp')
      ∧ GoodSt dp' cur' cs' ∧ cur' ++ cs'.flatten = [5] :=
  C6_read_cstring_utf8_error [[65, 220, 0, 5]] [65, 220] [5] (by decide)
    (by decide) (by decide) (by decide)

/-- C7: a source that reports a low-level failure on its very first fill
attempt makes any read on a freshly constructed reader — `read_bytes` for a
nonempty destination, or `read_string` — fail with `IOError` wrapping the
cause. -/
theorem C7_source_error_first_fill (cause : Nat) (rest : List FillResult)
    (dest : List Nat) (hne : dest ≠ []) :
    (read_bytes dest (DataProvider.new (FillResult.err cause :: rest))).1
      = Except.error (DataError.IOError cause)
    ∧ (read_string (DataProvider.new (FillResult.err cause :: rest))).1
      = Except.error (DataError.IOError cause) := by
  have hstep : get_next_byte (DataProvider.new (FillResult.err cause :: rest)) =
      (Except.error (DataError.IOError cause),
        { DataProvider.new (FillResult.err cause :: rest) with
            data_pointer := 0, reader := rest }) :=
    get_next_byte_refill_err _ cause rest rfl rfl
  constructor
  · match dest, hne with
    | d :: dest0, _ =>
        rw [read_bytes_cons_err d dest0 _ _ _ hstep]
  · unfold read_string
    rw [read_string_go_err [] _ _ _ hstep]

theorem C7_witness :
    (read_bytes [9] (DataProvider.new [FillResult.err 4])).1
      = Except.error (DataError.IOError 4)
    ∧ (read_string (DataProvider.new [FillResult.err 4])).1
      = Except.error (DataError.IOError 4) :=
  C7_source_error_first_fill 4 [] [9] (by decide)

/-- C8: the hand-written equality on `DataError` compares exactly the
variant tags: two `IOError` values are equal regardless of the wrapped
cause, `EndOfStream` equals only `EndOfStream`, `Utf8Error` equals only
`Utf8Error`, and distinct variants are never equal. -/
theorem C8_error_equality (e1 e2 : DataError) :
    DataError.beq e1 e2 = true ↔ DataError.tag e1 = DataError.tag e2 := by
  cases e1 <;> cases e2 <;> simp [DataError.beq, DataError.tag]

/-- C9: the invariant `0 <= data_pointer <= data_available <= 512` holds
after construction and is preserved by `get_next_byte`, by the refill step
`load_data`, by `read_bytes` and by `read_string`, whether they succeed or
fail, provided the source never reports filling more than the 512-byte
buffer it is handed (`readerWF`). -/
theorem C9_invariant :
    (∀ rs : List FillResult, BufInv (DataProvider.new rs))
    ∧ (∀ dp : DataProvider, readerWF dp.reader = true → BufInv dp →
        BufInv (get_next_byte dp).2)
    ∧ (∀ dp : DataProvider, readerWF dp.reader = true → BufInv dp →
        BufInv (load_data dp).2)
    ∧ (∀ (dest : List Nat) (dp : DataProvider), readerWF dp.reader = true →
        BufInv dp → BufInv (read_bytes dest dp).2.2)
    ∧ (∀ dp : DataProvider, readerWF dp.reader = true → BufInv dp →
        BufInv (read_string dp).2) :=
  ⟨fun _ => ⟨Nat.le_refl 0, Nat.zero_le _⟩,
   fun dp hw hI => (gnb_inv dp hw hI).1,
   fun dp hw hI => load_data_inv dp hw hI,
   fun dest dp hw hI => (read_bytes_inv dest dp hw hI).1,
   fun dp hw hI => (read_string_inv dp hw hI).1⟩

theorem C9_witness :
    BufInv (DataProvider.new [FillResult.ok [1, 2]])
    ∧ BufInv (get_next_byte (DataProvider.new [FillResult.ok [1, 2]])).2
    ∧ BufInv (load_data (DataProvider.new [FillResult.ok [1, 2]])).2
    ∧ BufInv (read_bytes [9] (DataProvider.new [FillResult.ok [1, 2]])).2.2
    ∧ BufInv (read_string (DataProvider.new [FillResult.ok [1, 2, 0]])).2 :=
  ⟨C9_invariant.1 [FillResult.ok [1, 2]],
   C9_invariant.2.1 (DataProvider.new [FillResult.ok [1, 2]]) (by decide) (by decide),
   C9_invariant.2.2.1 (DataProvider.new [FillResult.ok [1, 2]]) (by decide) (by decide),
   C9_invariant.2.2.2.1 [9] (DataProvider.new [FillResult.ok [1, 2]]) (by decide) (by decide),
   C9_invariant.2.2.2.2 (DataProvider.new [FillResult.ok [1, 2, 0]]) (by decide) (by decide)⟩

/-- C10: an `EndOfStream` failure leaves no poisoned state: afterwards the
cursor equals the fill level, so the next read queries the source again, and
when the source then delivers a nonempty chunk `c`, the read proceeds and
yields the first byte of `c`. -/
theorem C10_eos_not_sticky (dp dp' : DataProvider) (c : List Nat)
    (rest : List FillResult)
    (h : get_next_byte dp = (Except.error DataError.EndOfStream, dp'))
    (hr : dp'.reader = FillResult.ok c :: rest) (hc : c ≠ []) :
    dp'.data_pointer = dp'.data_available
    ∧ ∃ dp'', get_next_byte dp' = (Except.ok (c.headD 0), dp'') := by
  obtain ⟨hp0, hd0⟩ := gnb_eos_state dp dp' h
  have hpd : dp'.data_pointer = dp'.data_available := by rw [hp0, hd0]
  refine ⟨hpd, ?_⟩
  match c, hc with
  | cb :: ct, _ =>
      have hclen : (cb :: ct).length ≠ 0 := by simp
      have hgetD : (((cb :: ct) ++ dp'.buffer.drop (cb :: ct).length).take 512).getD 0 0
          = cb := by
        apply drop_cons_getD _ 0
        rw [List.drop_zero, List.cons_append,
          show (512 : Nat) = 511 + 1 from rfl, List.take_succ_cons]
      refine ⟨{ reader := rest
                buffer := ((cb :: ct) ++ dp'.buffer.drop (cb :: ct).length).take 512
                data_pointer := 1
                data_available := (cb :: ct).length }, ?_⟩
      rw [get_next_byte_refill_ok dp' (cb :: ct) rest hpd hr hclen, hgetD]
      rfl

theorem C10_witness :
    (get_next_byte (DataProvider.new [FillResult.ok [], FillResult.ok [5]])).2.data_pointer
      = (get_next_byte (DataProvider.new [FillResult.ok [], FillResult.ok [5]])).2.data_available
    ∧ ∃ dp'', get_next_byte
        (get_next_byte (DataProvider.new [FillResult.ok [], FillResult.ok [5]])).2
      = (Except.ok 5, dp'') :=
  C10_eos_not_sticky (DataProvider.new [FillResult.ok [], FillResult.ok [5]])
    (get_next_byte (DataProvider.new [FillResult.ok [], FillResult.ok [5]])).2
    [5] [] rfl rfl (by decide)
